import Mathlib

/-!
Verification of the Investigation Board core of the Case-File-Interrogator
repository: graph merge logic (`mergeGraphData` in `src/App.tsx`), the
force-directed layout engine, interaction handlers and render transform
(`MindMap` force-graph component), and the zoom buttons of both graph views.

All definitions are shallow embeddings of the TypeScript source, with machine
floats modelled by exact rationals and `Math.sqrt`/`Math.cos`/`Math.sin`
abstracted as function parameters where they occur.
-/

/-- Shallow embedding of the `MindMapNode` interface of `src/types.ts`:
`id`, `label`, `type`, `description` strings plus optional layout
coordinates `x?`, `y?`.  (Presentation-only optional fields such as
`metadata` and `color` play no role in any verified operation.) -/
structure MindMapNode where
  id : String
  label : String
  type : String
  description : String
  x : Option ℚ
  y : Option ℚ
deriving DecidableEq

/-- Shallow embedding of the `MindMapEdge` interface of `src/types.ts`. -/
structure MindMapEdge where
  source : String
  target : String
  relation : String
deriving DecidableEq

/-- Shallow embedding of the `MindMapData` interface of `src/types.ts`. -/
structure MindMapData where
  nodes : List MindMapNode
  edges : List MindMapEdge
deriving DecidableEq

/-- Shallow embedding of `mergeGraphData` in `src/App.tsx` (lines 112-140).
`prev` models the previous state (`null` before any merge); `newData` models
the incoming snapshot (the code guards against a `null` argument).  The
`forEach`/`find`/`push` loops become left folds that append an incoming node
when the accumulated list has no entry with the same `id` or the same
`label`, and append an incoming edge when the accumulated list has no entry
with the same `(source, target)` pair. -/
def mergeGraphData (prev : Option MindMapData) (newData : Option MindMapData) :
    MindMapData :=
  let prevNodes := match prev with | some p => p.nodes | none => []
  let prevEdges := match prev with | some p => p.edges | none => []
  match newData with
  | none => ⟨prevNodes, prevEdges⟩
  | some nd =>
      let newNodes := nd.nodes.foldl
        (fun acc n =>
          if acc.any (fun pn => decide (pn.id = n.id ∨ pn.label = n.label))
          then acc else acc ++ [n]) prevNodes
      let newEdges := nd.edges.foldl
        (fun acc e =>
          if acc.any (fun pe => decide (pe.source = e.source ∧ pe.target = e.target))
          then acc else acc ++ [e]) prevEdges
      ⟨newNodes, newEdges⟩

section FoldLemmas

variable {α : Type} (Q : α → α → Bool)

/-- The append-if-new fold only ever extends its accumulator. -/
lemma foldl_pushNew_extends (l : List α) (acc : List α) :
    ∃ t, l.foldl (fun a n => if a.any (Q n) then a else a ++ [n]) acc = acc ++ t := by
  induction l generalizing acc with
  | nil => exact ⟨[], by simp⟩
  | cons n l ih =>
      rw [List.foldl_cons]
      by_cases h : acc.any (Q n)
      · rw [if_pos h]; exact ih acc
      · rw [if_neg h]
        obtain ⟨t, ht⟩ := ih (acc ++ [n])
        exact ⟨n :: t, by rw [ht, List.append_assoc]; rfl⟩

/-- Members of the accumulator survive the append-if-new fold. -/
lemma foldl_pushNew_mem (l : List α) (acc : List α) {a : α} (ha : a ∈ acc) :
    a ∈ l.foldl (fun a n => if a.any (Q n) then a else a ++ [n]) acc := by
  obtain ⟨t, ht⟩ := foldl_pushNew_extends Q l acc
  rw [ht]
  exact List.mem_append_left _ ha

/-- If every element of the input already matches the accumulator, the
append-if-new fold is the identity. -/
lemma foldl_pushNew_fixed (l : List α) (acc : List α)
    (h : ∀ n ∈ l, acc.any (Q n) = true) :
    l.foldl (fun a n => if a.any (Q n) then a else a ++ [n]) acc = acc := by
  induction l with
  | nil => simp
  | cons n l ih =>
      have hn := h n (by simp)
      simp only [List.foldl_cons, if_pos hn]
      exact ih (fun m hm => h m (by simp [hm]))

/-- If some input element satisfies `P`, and matching (`Q`) preserves `P`,
then the result of the append-if-new fold contains an element satisfying
`P` — either the element itself was appended, or it was blocked by an
already-present match, which then satisfies `P` too. -/
lemma foldl_pushNew_reaches (P : α → Bool)
    (hPQ : ∀ a b, P a = true → Q a b = true → P b = true)
    (l : List α) : ∀ (acc : List α) (e : α), e ∈ l → P e = true →
    ∃ x ∈ l.foldl (fun a n => if a.any (Q n) then a else a ++ [n]) acc, P x = true := by
  induction l with
  | nil => intro acc e he _; cases he
  | cons n l ih =>
      intro acc e he hPe
      rcases List.mem_cons.mp he with rfl | hmem
      · by_cases h : acc.any (Q e)
        · obtain ⟨b, hb, hQ⟩ := List.any_eq_true.mp h
          refine ⟨b, ?_, hPQ e b hPe hQ⟩
          rw [List.foldl_cons, if_pos h]
          exact foldl_pushNew_mem Q l acc hb
        · refine ⟨e, ?_, hPe⟩
          rw [List.foldl_cons, if_neg h]
          exact foldl_pushNew_mem Q l (acc ++ [e]) (by simp)
      · by_cases h : acc.any (Q n)
        · rw [List.foldl_cons, if_pos h]
          exact ih acc e hmem hPe
        · rw [List.foldl_cons, if_neg h]
          exact ih (acc ++ [n]) e hmem hPe

end FoldLemmas

/-- Modelled from the amended claim C1: incoming nodes are appended exactly
when no node already in the accumulated list (the existing nodes plus the
incoming nodes appended so far) shares their `id` or their `label`. -/
def specMergeNodes (acc : List MindMapNode) : List MindMapNode → List MindMapNode
  | [] => acc
  | n :: rest =>
      if acc.any (fun pn => decide (pn.id = n.id ∨ pn.label = n.label))
      then specMergeNodes acc rest
      else specMergeNodes (acc ++ [n]) rest

/-- Modelled from the amended claim C1: incoming edges are appended exactly
when no edge already in the accumulated list (the existing edges plus the
incoming edges appended so far) has the same ordered `(source, target)`
pair. -/
def specMergeEdges (acc : List MindMapEdge) : List MindMapEdge → List MindMapEdge
  | [] => acc
  | e :: rest =>
      if acc.any (fun pe => decide (pe.source = e.source ∧ pe.target = e.target))
      then specMergeEdges acc rest
      else specMergeEdges (acc ++ [e]) rest

lemma specMergeNodes_eq_foldl (l acc : List MindMapNode) :
    l.foldl
      (fun a n =>
        if a.any (fun pn => decide (pn.id = n.id ∨ pn.label = n.label))
        then a else a ++ [n]) acc = specMergeNodes acc l := by
  induction l generalizing acc with
  | nil => rfl
  | cons n l ih =>
      by_cases h : acc.any (fun pn => decide (pn.id = n.id ∨ pn.label = n.label))
      · simp only [List.foldl_cons, if_pos h, specMergeNodes, ih]
      · simp only [List.foldl_cons, if_neg h, specMergeNodes, ih]

lemma specMergeEdges_eq_foldl (l acc : List MindMapEdge) :
    l.foldl
      (fun a e =>
        if a.any (fun pe => decide (pe.source = e.source ∧ pe.target = e.target))
        then a else a ++ [e]) acc = specMergeEdges acc l := by
  induction l generalizing acc with
  | nil => rfl
  | cons e l ih =>
      by_cases h : acc.any (fun pe => decide (pe.source = e.source ∧ pe.target = e.target))
      · simp only [List.foldl_cons, if_pos h, specMergeEdges, ih]
      · simp only [List.foldl_cons, if_neg h, specMergeEdges, ih]

/-- C5: merging a graph into itself is idempotent — `mergeGraphData`
applied to `(g, g)` returns `g` itself (hence the same node and edge
counts, and equality even without reordering). -/
theorem mergeGraphData_idempotent (g : MindMapData) :
    mergeGraphData (some g) (some g) = g := by
  have hn : g.nodes.foldl
      (fun a n =>
        if a.any (fun pn => decide (pn.id = n.id ∨ pn.label = n.label))
        then a else a ++ [n]) g.nodes = g.nodes :=
    foldl_pushNew_fixed _ _ _
      (fun n hn => List.any_eq_true.mpr ⟨n, hn, by simp⟩)
  have he : g.edges.foldl
      (fun a e =>
        if a.any (fun pe => decide (pe.source = e.source ∧ pe.target = e.target))
        then a else a ++ [e]) g.edges = g.edges :=
    foldl_pushNew_fixed _ _ _
      (fun e he => List.any_eq_true.mpr ⟨e, he, by simp⟩)
  simp only [mergeGraphData]
  rw [hn, he]

/-- C6: merge is purely additive — every node of the existing graph `g`
is still present after merging any incoming graph `g2`, and independently
every edge of `g` is still present; merging never deletes anything. -/
theorem mergeGraphData_additive (g g2 : MindMapData) :
    (∀ n ∈ g.nodes, n ∈ (mergeGraphData (some g) (some g2)).nodes) ∧
      (∀ e ∈ g.edges, e ∈ (mergeGraphData (some g) (some g2)).edges) := by
  constructor
  · intro n hn
    simp only [mergeGraphData]
    exact foldl_pushNew_mem _ _ _ hn
  · intro e he
    simp only [mergeGraphData]
    exact foldl_pushNew_mem _ _ _ he

/-- Witness for C6: node preservation on an edge-free existing graph and,
separately, edge preservation on another concrete pair of graphs. -/
theorem mergeGraphData_additive_witness :
    (⟨"A", "Alice", "person", "", none, none⟩ : MindMapNode) ∈
        (mergeGraphData
          (some ⟨[⟨"A", "Alice", "person", "", none, none⟩], []⟩)
          (some ⟨[⟨"B", "Bob", "person", "", none, none⟩], []⟩)).nodes ∧
      (⟨"A", "C", "knows"⟩ : MindMapEdge) ∈
        (mergeGraphData
          (some ⟨[⟨"A", "Alice", "person", "", none, none⟩], [⟨"A", "C", "knows"⟩]⟩)
          (some ⟨[⟨"B", "Bob", "person", "", none, none⟩], []⟩)).edges :=
  ⟨(mergeGraphData_additive
      ⟨[⟨"A", "Alice", "person", "", none, none⟩], []⟩
      ⟨[⟨"B", "Bob", "person", "", none, none⟩], []⟩).1 _ (by decide),
   (mergeGraphData_additive
      ⟨[⟨"A", "Alice", "person", "", none, none⟩], [⟨"A", "C", "knows"⟩]⟩
      ⟨[⟨"B", "Bob", "person", "", none, none⟩], []⟩).2 _ (by decide)⟩

/-- Counterexample to C1 as stated: node dedup is NOT computed against the
existing graph alone.  With an empty existing graph and an incoming graph
whose two nodes share a label, no incoming node matches any existing node,
so the claim predicts both are appended — but the code appends only the
first, because the second is compared against the accumulated list that
already contains the first. -/
theorem mergeGraphData_dedup_not_existing_only :
    (mergeGraphData (some ⟨[], []⟩)
        (some ⟨[⟨"a", "L", "person", "", none, none⟩,
                ⟨"b", "L", "person", "", none, none⟩], []⟩)).nodes ≠
      ([] : List MindMapNode) ++
        ([⟨"a", "L", "person", "", none, none⟩,
          ⟨"b", "L", "person", "", none, none⟩].filter
          (fun n => !(([] : List MindMapNode).any
            (fun pn => decide (pn.id = n.id ∨ pn.label = n.label))))) := by
  decide

/-- C1 amended: merge appends exactly those incoming nodes for which no
node already in the accumulated list — the existing nodes plus the
incoming nodes appended so far — shares the id or the label (and dually
for edges with the ordered `(source, target)` pair); in particular merging
`{nodes:[A]}` with `{nodes:[A,B], edges:[(A,B,knows)]}` yields exactly the
two nodes `A, B` and the single edge, with no duplicate `A`. -/
theorem mergeGraphData_accumulative_dedup :
    (∀ ex inc : MindMapData,
        mergeGraphData (some ex) (some inc) =
          ⟨specMergeNodes ex.nodes inc.nodes, specMergeEdges ex.edges inc.edges⟩)
    ∧ mergeGraphData
        (some ⟨[⟨"A", "Alice", "person", "", none, none⟩], []⟩)
        (some ⟨[⟨"A", "Alice", "person", "", none, none⟩,
                ⟨"B", "Bob", "person", "", none, none⟩],
               [⟨"A", "B", "knows"⟩]⟩) =
        ⟨[⟨"A", "Alice", "person", "", none, none⟩,
          ⟨"B", "Bob", "person", "", none, none⟩],
         [⟨"A", "B", "knows"⟩]⟩ := by
  constructor
  · intro ex inc
    simp only [mergeGraphData]
    rw [specMergeNodes_eq_foldl, specMergeEdges_eq_foldl]
  · decide

/-- Counterexample to C10 as stated: merging an incoming reverse edge
`(B, A, r2)` does NOT always append it — when the existing graph already
holds some edge with the ordered pair `(B, A)`, the incoming reverse edge
is dropped by the pair-based dedup. -/
theorem reverse_edge_not_always_appended :
    (⟨"A", "B", "r"⟩ : MindMapEdge) ∈
        [(⟨"A", "B", "r"⟩ : MindMapEdge), ⟨"B", "A", "q"⟩] ∧
      (⟨"B", "A", "r2"⟩ : MindMapEdge) ∈ [(⟨"B", "A", "r2"⟩ : MindMapEdge)] ∧
      (⟨"B", "A", "r2"⟩ : MindMapEdge) ∉
        (mergeGraphData (some ⟨[], [⟨"A", "B", "r"⟩, ⟨"B", "A", "q"⟩]⟩)
          (some ⟨[], [⟨"B", "A", "r2"⟩]⟩)).edges := by
  decide

/-- C10 amended: edge dedup compares only the ordered `(source, target)`
pair, so it is direction-sensitive — if the existing graph holds `(A,B,r)`
and the incoming graph holds the reverse edge `(B,A,r2)`, the merged graph
still holds `(A,B,r)` and holds some edge with the ordered pair `(B,A)`
(the incoming reverse edge itself unless an edge with that pair was
already accumulated), so both directions coexist. -/
theorem reverse_edge_direction_sensitive (ex inc : MindMapData)
    (A B r r2 : String)
    (hAB : (⟨A, B, r⟩ : MindMapEdge) ∈ ex.edges)
    (hBA : (⟨B, A, r2⟩ : MindMapEdge) ∈ inc.edges) :
    (⟨A, B, r⟩ : MindMapEdge) ∈ (mergeGraphData (some ex) (some inc)).edges
    ∧ ∃ e ∈ (mergeGraphData (some ex) (some inc)).edges,
        e.source = B ∧ e.target = A := by
  simp only [mergeGraphData]
  refine ⟨foldl_pushNew_mem _ _ _ hAB, ?_⟩
  have h := foldl_pushNew_reaches
    (fun e pe => decide (pe.source = e.source ∧ pe.target = e.target))
    (fun e => decide (e.source = B ∧ e.target = A))
    (by
      intro a b ha hab
      have ha2 := of_decide_eq_true ha
      have hab2 := of_decide_eq_true hab
      exact decide_eq_true (by exact ⟨hab2.1.trans ha2.1, hab2.2.trans ha2.2⟩))
    inc.edges ex.edges ⟨B, A, r2⟩ hBA (by simp)
  obtain ⟨x, hx, hPx⟩ := h
  exact ⟨x, hx, of_decide_eq_true hPx⟩

/-- Witness for C10's amended theorem at concrete graphs. -/
theorem reverse_edge_direction_sensitive_witness :
    (⟨"A", "B", "knows"⟩ : MindMapEdge) ∈
        (mergeGraphData (some ⟨[], [⟨"A", "B", "knows"⟩]⟩)
          (some ⟨[], [⟨"B", "A", "employs"⟩]⟩)).edges
    ∧ ∃ e ∈ (mergeGraphData (some ⟨[], [⟨"A", "B", "knows"⟩]⟩)
          (some ⟨[], [⟨"B", "A", "employs"⟩]⟩)).edges,
        e.source = "B" ∧ e.target = "A" :=
  reverse_edge_direction_sensitive _ _ "A" "B" "knows" "employs"
    (by decide) (by decide)

/-- Counterexample to C2 as stated: an edge whose target id is absent from
the node set is NOT dropped at ingestion.  Ingesting (merging into the
empty state) a graph whose only edge is `(X, Y)` with `Y` absent from the
nodes yields a graph that still contains that edge, not zero edges. -/
theorem dangling_edge_retained_at_ingestion :
    ([(⟨"X", "X entity", "person", "", none, none⟩ : MindMapNode)].all
        (fun n => decide (n.id ≠ "Y")))
    ∧ (mergeGraphData none
        (some ⟨[⟨"X", "X entity", "person", "", none, none⟩],
               [⟨"X", "Y", "present at"⟩]⟩)).edges = [⟨"X", "Y", "present at"⟩] := by
  decide

/-- A node as held in the force-graph component state after
initialization: the spread `{...n, x, y, vx, vy}` of the `MindMap`
force-graph component (`initialNodes`, lines 43-54), with all four
simulation coordinates concrete. -/
structure SimNode where
  id : String
  label : String
  type : String
  description : String
  x : ℚ
  y : ℚ
  vx : ℚ
  vy : ℚ
deriving DecidableEq

/-- JavaScript `a || b` on an optional number: the fallback is used when
the value is absent or `0` (falsy). -/
def jsOr (v : Option ℚ) (d : ℚ) : ℚ :=
  match v with
  | none => d
  | some w => if w = 0 then d else w

/-- Shallow embedding of the `initialNodes` computation of the force-graph
`MindMap` component (lines 43-54): node `i` is placed on the spiral of
angle `0.5 * i` and radius `50 + 10 * i` around the viewport center unless
it already carries a (truthy) position, with zero velocity.  `Math.cos`
and `Math.sin` are abstracted as the parameters `cosf` and `sinf`. -/
def initialNodes (cosf sinf : ℚ → ℚ) (centerX centerY : ℚ)
    (ns : List MindMapNode) : List SimNode :=
  ns.enum.map (fun p =>
    let i : ℚ := p.1
    let n := p.2
    let angle := (1/2 : ℚ) * i
    let radius := 50 + 10 * i
    { id := n.id, label := n.label, type := n.type, description := n.description,
      x := jsOr n.x (centerX + cosf angle * radius),
      y := jsOr n.y (centerY + sinf angle * radius),
      vx := 0, vy := 0 })

/-- Tuned physics constant `repulsion = 200000` of the simulation loop. -/
def repulsionK : ℚ := 200000

/-- Tuned physics constant `k = 0.02` (spring) of the simulation loop. -/
def springK : ℚ := 1/50

/-- Tuned physics constant `centerGravity = 0.002` of the simulation loop. -/
def centerGravityK : ℚ := 1/500

/-- Tuned physics constant `damping = 0.80` of the simulation loop. -/
def dampingK : ℚ := 4/5

/-- Tuned physics constant `maxVelocity = 15` of the simulation loop. -/
def maxVelocity : ℚ := 15

/-- Tuned physics constant `idealLength = 100` of the simulation loop. -/
def idealLength : ℚ := 100

/-- The component-wise velocity clamp of the simulation loop
(lines 127-130): values above `maxVelocity` become `maxVelocity`, values
below `-maxVelocity` become `-maxVelocity`. -/
def clampV (v : ℚ) : ℚ :=
  if v > maxVelocity then maxVelocity
  else if v < -maxVelocity then -maxVelocity
  else v

/-- The squared-distance floor of the repulsion term (line 82):
`if (distSq < 100) distSq = 100`. -/
def flooredDistSq (dx dy : ℚ) : ℚ :=
  let d := dx * dx + dy * dy
  if d < 100 then 100 else d

/-- The per-node force accumulation of one simulation frame (steps A-C of
`simulate`, lines 72-119): repulsion over all other entries of the current
(partially updated) array, spring tension over the graph edges, and
center gravity.  `sq` abstracts `Math.sqrt`; `i` is the index of `node`
in `arr`, skipped by the repulsion loop. -/
def computeForce (sq : ℚ → ℚ) (edges : List MindMapEdge)
    (centerX centerY : ℚ) (arr : List SimNode) (i : ℕ) (node : SimNode) :
    ℚ × ℚ :=
  let rep := arr.enum.foldl
    (fun (f : ℚ × ℚ) p =>
      if p.1 = i then f
      else
        let other := p.2
        let dx := node.x - other.x
        let dy := node.y - other.y
        let distSq := flooredDistSq dx dy
        let dist := sq distSq
        let force := repulsionK / distSq
        (f.1 + dx / dist * force, f.2 + dy / dist * force)) (0, 0)
  let spr := edges.foldl
    (fun (f : ℚ × ℚ) e =>
      let otherNode :=
        if e.source = node.id then arr.find? (fun n => n.id = e.target)
        else if e.target = node.id then arr.find? (fun n => n.id = e.source)
        else none
      match otherNode with
      | none => f
      | some o =>
          let dx := o.x - node.x
          let dy := o.y - node.y
          let dist := sq (dx * dx + dy * dy)
          let displacement := dist - idealLength
          let force := springK * displacement
          if dist > 0 then (f.1 + dx / dist * force, f.2 + dy / dist * force)
          else f) rep
  (spr.1 + (centerX - node.x) * centerGravityK,
   spr.2 + (centerY - node.y) * centerGravityK)

/-- Step D of the simulation frame (lines 121-134): unless the node is the
one currently dragged, damp and clamp the velocity and integrate the
position; the dragged node is left untouched. -/
def updateNode (draggedNodeId : Option String) (node : SimNode) (f : ℚ × ℚ) :
    SimNode :=
  if draggedNodeId = some node.id then node
  else
    let vx := clampV ((node.vx + f.1) * dampingK)
    let vy := clampV ((node.vy + f.2) * dampingK)
    { node with vx := vx, vy := vy, x := node.x + vx, y := node.y + vy }

/-- Processing of the node at index `i` inside the frame loop: compute its
forces against the current (partially updated) array and write the updated
node back in place, mirroring the in-place mutation of `newNodes[i]`. -/
def stepNode (sq : ℚ → ℚ) (edges : List MindMapEdge)
    (centerX centerY : ℚ) (draggedNodeId : Option String)
    (arr : List SimNode) (i : ℕ) : List SimNode :=
  match arr[i]? with
  | none => arr
  | some node =>
      arr.set i (updateNode draggedNodeId node
        (computeForce sq edges centerX centerY arr i node))

/-- One full frame of the `simulate` loop (lines 59-138): every node is
processed in index order, each seeing the in-place updates already made to
earlier indices, exactly as the mutating `forEach` of the source does. -/
def simulate (sq : ℚ → ℚ) (edges : List MindMapEdge)
    (centerX centerY : ℚ) (draggedNodeId : Option String)
    (nodes : List SimNode) : List SimNode :=
  (List.range nodes.length).foldl
    (stepNode sq edges centerX centerY draggedNodeId) nodes

/-- `N` consecutive animation frames of the simulation loop. -/
def simulateIter (sq : ℚ → ℚ) (edges : List MindMapEdge)
    (centerX centerY : ℚ) (draggedNodeId : Option String) :
    ℕ → List SimNode → List SimNode
  | 0, ns => ns
  | Nat.succ k, ns =>
      simulate sq edges centerX centerY draggedNodeId
        (simulateIter sq edges centerX centerY draggedNodeId k ns)

/-- Shallow embedding of the node-drag branch of `handleMouseMove`
(lines 180-196): the pointer position is inverse-transformed through the
camera (`(client - rectOrigin - pan) / zoom`) and written onto the dragged
node with zeroed velocity. -/
def dragNodeTo (clientX clientY rectLeft rectTop panX panY zoom : ℚ)
    (draggedNodeId : String) (nodes : List SimNode) : List SimNode :=
  let mouseX := (clientX - rectLeft - panX) / zoom
  let mouseY := (clientY - rectTop - panY) / zoom
  nodes.map (fun n =>
    if n.id = draggedNodeId
    then { n with x := mouseX, y := mouseY, vx := 0, vy := 0 }
    else n)

/-- The edge-render guard of the force-graph component (lines 272-275):
an edge produces a drawn line only when both endpoint ids resolve in the
node array and both resolved nodes have truthy `x` (the source checks
`!source || !target || !source.x || !target.x`). -/
def renderedEdges (nodes : List SimNode) (edges : List MindMapEdge) :
    List MindMapEdge :=
  edges.filter (fun e =>
    match nodes.find? (fun n => n.id = e.source),
          nodes.find? (fun n => n.id = e.target) with
    | some s, some t => !(s.x = 0) && !(t.x = 0)
    | _, _ => false)

/-- The camera transform of the render surface (lines 266-268): the
container div carries `translate(pan.x, pan.y) scale(zoom)` with top-left
origin, mapping a container-space point `p` to `pan + zoom • p`. -/
def cameraTransform (panX panY zoom : ℚ) (p : ℚ × ℚ) : ℚ × ℚ :=
  (panX + zoom * p.1, panY + zoom * p.2)

/-- Screen position of a node's center: the node div sits at container
coordinates `(node.x, node.y)` (centered on itself by
`-translate-x-1/2 -translate-y-1/2`) inside the camera-transformed
container. -/
def nodeScreenCenter (panX panY zoom : ℚ) (n : SimNode) : ℚ × ℚ :=
  cameraTransform panX panY zoom (n.x, n.y)

/-- Screen x-coordinate of the left border of a node's 40px body
(`w-10 h-10`, lines 326-331): container coordinate `node.x - 20` pushed
through the camera transform. -/
def nodeScreenLeftEdge (panX panY zoom : ℚ) (n : SimNode) : ℚ :=
  (cameraTransform panX panY zoom (n.x - 20, n.y)).1

/-- Screen x-coordinate of the right border of a node's 40px body. -/
def nodeScreenRightEdge (panX panY zoom : ℚ) (n : SimNode) : ℚ :=
  (cameraTransform panX panY zoom (n.x + 20, n.y)).1

/-- Rendered on-screen width of a node's body: right border minus left
border after the camera transform. -/
def renderedNodeWidth (panX panY zoom : ℚ) (n : SimNode) : ℚ :=
  nodeScreenRightEdge panX panY zoom n - nodeScreenLeftEdge panX panY zoom n

/-- Zoom-out button of the force-graph view (line 246):
`setZoom(z => Math.max(0.3, z - 0.1))`. -/
def forceZoomOut (z : ℚ) : ℚ := max (3/10) (z - 1/10)

/-- Zoom-in button of the force-graph view (line 248):
`setZoom(z => Math.min(3, z + 0.1))`. -/
def forceZoomIn (z : ℚ) : ℚ := min 3 (z + 1/10)

/-- Zoom-out button of the radial view (`src/components/MindMap.tsx`
line 118): `setZoom(z => Math.max(0.5, z - 0.1))`. -/
def radialZoomOut (z : ℚ) : ℚ := max (1/2) (z - 1/10)

/-- Zoom-in button of the radial view (`src/components/MindMap.tsx`
line 120): `setZoom(z => Math.min(2, z + 0.1))`. -/
def radialZoomIn (z : ℚ) : ℚ := min 2 (z + 1/10)

/-- The pieces of component state touched by the zoom buttons: `zoom` is a
separate `useState` cell from the node array, so a functional update of
`zoom` leaves `nodes` untouched. -/
structure ForceViewState where
  zoom : ℚ
  panX : ℚ
  panY : ℚ
  nodes : List SimNode

/-- The zoom-in button handler as a state update. -/
def zoomInButton (s : ForceViewState) : ForceViewState :=
  { s with zoom := forceZoomIn s.zoom }

/-- The zoom-out button handler as a state update. -/
def zoomOutButton (s : ForceViewState) : ForceViewState :=
  { s with zoom := forceZoomOut s.zoom }

lemma clampV_le (v : ℚ) : clampV v ≤ maxVelocity ∧ -maxVelocity ≤ clampV v := by
  simp only [clampV, maxVelocity]
  split_ifs with h1 h2
  · exact ⟨le_refl _, by norm_num⟩
  · exact ⟨by norm_num, le_refl _⟩
  · rw [not_lt] at h1 h2
    exact ⟨h1, h2⟩

lemma abs_clampV_le (v : ℚ) : |clampV v| ≤ maxVelocity :=
  abs_le.mpr ⟨(clampV_le v).2, (clampV_le v).1⟩

lemma updateNode_dragged (d : Option String) (node : SimNode) (f : ℚ × ℚ)
    (h : d = some node.id) : updateNode d node f = node := by
  simp only [updateNode, if_pos h]

lemma updateNode_fields (d : Option String) (node : SimNode) (f : ℚ × ℚ)
    (h : ¬ d = some node.id) :
    (updateNode d node f).vx = clampV ((node.vx + f.1) * dampingK) ∧
    (updateNode d node f).vy = clampV ((node.vy + f.2) * dampingK) ∧
    (updateNode d node f).x = node.x + (updateNode d node f).vx ∧
    (updateNode d node f).y = node.y + (updateNode d node f).vy := by
  simp only [updateNode, if_neg h]
  exact ⟨trivial, trivial, trivial, trivial⟩

lemma updateNode_move_bound (d : Option String) (node : SimNode) (f : ℚ × ℚ) :
    |(updateNode d node f).x - node.x| ≤ maxVelocity ∧
    |(updateNode d node f).y - node.y| ≤ maxVelocity := by
  by_cases h : d = some node.id
  · rw [updateNode_dragged d node f h]
    simp [maxVelocity]
  · obtain ⟨hvx, hvy, hx, hy⟩ := updateNode_fields d node f h
    constructor
    · rw [hx, add_sub_cancel_left, hvx]; exact abs_clampV_le _
    · rw [hy, add_sub_cancel_left, hvy]; exact abs_clampV_le _

lemma updateNode_vel_bound (d : Option String) (node : SimNode) (f : ℚ × ℚ)
    (h : ¬ d = some node.id) :
    |(updateNode d node f).vx| ≤ maxVelocity ∧
    |(updateNode d node f).vy| ≤ maxVelocity := by
  obtain ⟨hvx, hvy, _, _⟩ := updateNode_fields d node f h
  rw [hvx, hvy]
  exact ⟨abs_clampV_le _, abs_clampV_le _⟩

/-- Characterization of one full simulation frame: its length is the input
length, and every entry is its input entry pushed through step D
(`updateNode`) under some force vector (the force depends on the partially
updated array, which this lemma leaves abstract). -/
lemma simulate_fold_spec (sq : ℚ → ℚ) (edges : List MindMapEdge)
    (cX cY : ℚ) (d : Option String) (nodes : List SimNode) (k : ℕ) :
    ((List.range k).foldl (stepNode sq edges cX cY d) nodes).length = nodes.length
    ∧ (∀ j, k ≤ j →
        ((List.range k).foldl (stepNode sq edges cX cY d) nodes)[j]? = nodes[j]?)
    ∧ (∀ j, j < k → j < nodes.length → ∃ F : ℚ × ℚ,
        ((List.range k).foldl (stepNode sq edges cX cY d) nodes)[j]? =
          Option.map (fun n0 => updateNode d n0 F) nodes[j]?) := by
  induction k with
  | zero =>
      refine ⟨rfl, fun j _ => rfl, fun j hj _ => absurd hj (Nat.not_lt_zero j)⟩
  | succ k ih =>
      obtain ⟨ihlen, ihge, ihlt⟩ := ih
      have hstep : (List.range (k + 1)).foldl (stepNode sq edges cX cY d) nodes =
          stepNode sq edges cX cY d
            ((List.range k).foldl (stepNode sq edges cX cY d) nodes) k := by
        rw [List.range_succ, List.foldl_append]
        rfl
      set arr := (List.range k).foldl (stepNode sq edges cX cY d) nodes with harr
      rcases hk : arr[k]? with _ | node
      · have hid : stepNode sq edges cX cY d arr k = arr := by
          simp only [stepNode, hk]
        rw [hstep, hid]
        refine ⟨ihlen, fun j hj => ihge j (Nat.le_of_succ_le hj), ?_⟩
        intro j hj hjlen
        rcases Nat.lt_succ_iff_lt_or_eq.mp hj with hjk | rfl
        · exact ihlt j hjk hjlen
        · exfalso
          have : arr.length ≤ j := List.getElem?_eq_none_iff.mp hk
          omega
      · have hklen : k < arr.length := by
          have := List.getElem?_eq_some.mp hk
          exact this.1
        have hset : stepNode sq edges cX cY d arr k =
            arr.set k (updateNode d node (computeForce sq edges cX cY arr k node)) := by
          simp only [stepNode, hk]
        rw [hstep, hset]
        refine ⟨by rw [List.length_set]; exact ihlen, ?_, ?_⟩
        · intro j hj
          have hne : k ≠ j := by omega
          rw [List.getElem?_set_ne hne]
          exact ihge j (by omega)
        · intro j hj hjlen
          rcases Nat.lt_succ_iff_lt_or_eq.mp hj with hjk | rfl
          · have hne : k ≠ j := by omega
            rw [List.getElem?_set_ne hne]
            exact ihlt j hjk hjlen
          · refine ⟨computeForce sq edges cX cY arr j node, ?_⟩
            rw [List.getElem?_set_self hklen]
            have hkj : arr[j]? = nodes[j]? := ihge j le_rfl
            rw [hk] at hkj
            rw [← hkj]
            rfl

lemma simulate_length (sq : ℚ → ℚ) (edges : List MindMapEdge)
    (cX cY : ℚ) (d : Option String) (nodes : List SimNode) :
    (simulate sq edges cX cY d nodes).length = nodes.length :=
  (simulate_fold_spec sq edges cX cY d nodes nodes.length).1

lemma simulate_getElem (sq : ℚ → ℚ) (edges : List MindMapEdge)
    (cX cY : ℚ) (d : Option String) (nodes : List SimNode) (j : ℕ)
    (hj : j < nodes.length) :
    ∃ F : ℚ × ℚ, (simulate sq edges cX cY d nodes)[j]? =
      Option.map (fun n0 => updateNode d n0 F) nodes[j]? :=
  (simulate_fold_spec sq edges cX cY d nodes nodes.length).2.2 j hj hj

lemma simulateIter_length (sq : ℚ → ℚ) (edges : List MindMapEdge)
    (cX cY : ℚ) (d : Option String) (N : ℕ) (nodes : List SimNode) :
    (simulateIter sq edges cX cY d N nodes).length = nodes.length := by
  induction N with
  | zero => rfl
  | succ k ih =>
      show (simulate sq edges cX cY d (simulateIter sq edges cX cY d k nodes)).length = _
      rw [simulate_length, ih]

lemma simulateIter_bounded (sq : ℚ → ℚ) (edges : List MindMapEdge)
    (cX cY : ℚ) (nodes : List SimNode) (N i : ℕ) (hi : i < nodes.length) :
    ∃ m : SimNode, (simulateIter sq edges cX cY none N nodes)[i]? = some m ∧
      |m.x - (nodes.get ⟨i, hi⟩).x| ≤ maxVelocity * N ∧
      |m.y - (nodes.get ⟨i, hi⟩).y| ≤ maxVelocity * N ∧
      (1 ≤ N → |m.vx| ≤ maxVelocity ∧ |m.vy| ≤ maxVelocity) := by
  induction N with
  | zero =>
      refine ⟨nodes.get ⟨i, hi⟩, ?_, by simp, by simp, fun h => absurd h (by omega)⟩
      exact List.getElem?_eq_getElem hi
  | succ k ih =>
      obtain ⟨m, hm, hx, hy, hv⟩ := ih
      have hlen : i < (simulateIter sq edges cX cY none k nodes).length := by
        rw [simulateIter_length]; exact hi
      obtain ⟨F, hF⟩ := simulate_getElem sq edges cX cY none
        (simulateIter sq edges cX cY none k nodes) i hlen
      have hstep : (simulateIter sq edges cX cY none (k + 1) nodes)[i]? =
          Option.map (fun n0 => updateNode none n0 F)
            (simulateIter sq edges cX cY none k nodes)[i]? := hF
      rw [hm] at hstep
      refine ⟨updateNode none m F, hstep, ?_, ?_, ?_⟩
      · have h1 := (updateNode_move_bound none m F).1
        have h2 := abs_sub_le (updateNode none m F).x m.x (nodes.get ⟨i, hi⟩).x
        have : (maxVelocity : ℚ) * (k + 1) = maxVelocity + maxVelocity * k := by ring
        push_cast
        linarith
      · have h1 := (updateNode_move_bound none m F).2
        have h2 := abs_sub_le (updateNode none m F).y m.y (nodes.get ⟨i, hi⟩).y
        have : (maxVelocity : ℚ) * (k + 1) = maxVelocity + maxVelocity * k := by ring
        push_cast
        linarith
      · intro _
        exact updateNode_vel_bound none m F (by simp)

/-- C4: the layout simulation never blows up — the squared-distance floor
keeps every repulsion denominator at least `100` (so the division is over
a positive quantity even for coincident nodes), and for any graph of 1-50
nodes with arbitrary rational initial state, after any number `N` of
frames every node is still present with each coordinate displaced by at
most `maxVelocity * N` from its start and (once at least one frame has
run) each velocity component clamped into `[-maxVelocity, maxVelocity]` —
all coordinates remain bounded rationals, the exact-arithmetic counterpart
of float finiteness. -/
theorem simulation_remains_bounded (sq : ℚ → ℚ) (edges : List MindMapEdge)
    (cX cY : ℚ) (nodes : List SimNode) (N i : ℕ)
    (_hcnt1 : 1 ≤ nodes.length) (_hcnt50 : nodes.length ≤ 50)
    (hi : i < nodes.length) :
    (∀ dx dy : ℚ, 100 ≤ flooredDistSq dx dy) ∧
    ∃ m : SimNode, (simulateIter sq edges cX cY none N nodes)[i]? = some m ∧
      |m.x - (nodes.get ⟨i, hi⟩).x| ≤ maxVelocity * N ∧
      |m.y - (nodes.get ⟨i, hi⟩).y| ≤ maxVelocity * N ∧
      (1 ≤ N → |m.vx| ≤ maxVelocity ∧ |m.vy| ≤ maxVelocity) := by
  constructor
  · intro dx dy
    simp only [flooredDistSq]
    split_ifs with h
    · exact le_refl _
    · rw [not_lt] at h; exact h
  · exact simulateIter_bounded sq edges cX cY nodes N i hi

/-- Witness for C4 on a concrete one-node graph after two frames. -/
theorem simulation_remains_bounded_witness :
    (∀ dx dy : ℚ, 100 ≤ flooredDistSq dx dy) ∧
    ∃ m : SimNode,
      (simulateIter (fun q => q) [] 0 0 none 2
          [⟨"n", "N", "person", "", 0, 0, 0, 0⟩])[0]? = some m ∧
      |m.x - (([⟨"n", "N", "person", "", 0, 0, 0, 0⟩] : List SimNode).get
          ⟨0, by decide⟩).x| ≤ maxVelocity * ((2 : ℕ) : ℚ) ∧
      |m.y - (([⟨"n", "N", "person", "", 0, 0, 0, 0⟩] : List SimNode).get
          ⟨0, by decide⟩).y| ≤ maxVelocity * ((2 : ℕ) : ℚ) ∧
      (1 ≤ 2 → |m.vx| ≤ maxVelocity ∧ |m.vy| ≤ maxVelocity) :=
  simulation_remains_bounded (fun q => q) [] 0 0
    [⟨"n", "N", "person", "", 0, 0, 0, 0⟩] 2 0 (by decide) (by decide) (by decide)

lemma dragNodeTo_length (clientX clientY rectLeft rectTop panX panY zoom : ℚ)
    (d : String) (nodes : List SimNode) :
    (dragNodeTo clientX clientY rectLeft rectTop panX panY zoom d nodes).length =
      nodes.length := by
  simp [dragNodeTo]

/-- C3: while node `d` is dragged, `handleMouseMove` pins its simulation
position to the inverse camera transform `((sx - panX)/zoom, (sy - panY)/zoom)`
of the container-relative pointer point `(sx, sy) = (clientX - rectLeft,
clientY - rectTop)` and zeroes its velocity, and the simulation frame
leaves the pinned node entirely untouched (step D is skipped for it) while
every other node still receives the damped-clamped velocity update and
position integration. -/
theorem drag_pinning (sq : ℚ → ℚ) (edges : List MindMapEdge)
    (cX cY clientX clientY rectLeft rectTop panX panY zoom : ℚ)
    (d : String) (nodes : List SimNode) :
    (∀ i (hi : i < nodes.length), (nodes.get ⟨i, hi⟩).id = d →
      ∃ m : SimNode,
        (dragNodeTo clientX clientY rectLeft rectTop panX panY zoom d nodes)[i]? =
            some m ∧
          m.x = (clientX - rectLeft - panX) / zoom ∧
          m.y = (clientY - rectTop - panY) / zoom ∧
          m.vx = 0 ∧ m.vy = 0 ∧
          (simulate sq edges cX cY (some d)
            (dragNodeTo clientX clientY rectLeft rectTop panX panY zoom d nodes))[i]? =
            some m)
    ∧ (∀ (ns : List SimNode) i (hi : i < ns.length), (ns.get ⟨i, hi⟩).id ≠ d →
      ∃ (m : SimNode) (F : ℚ × ℚ),
        (simulate sq edges cX cY (some d) ns)[i]? = some m ∧
          m.vx = clampV (((ns.get ⟨i, hi⟩).vx + F.1) * dampingK) ∧
          m.vy = clampV (((ns.get ⟨i, hi⟩).vy + F.2) * dampingK) ∧
          m.x = (ns.get ⟨i, hi⟩).x + m.vx ∧
          m.y = (ns.get ⟨i, hi⟩).y + m.vy) := by
  constructor
  · intro i hi hid
    have hget : nodes[i]? = some (nodes.get ⟨i, hi⟩) := List.getElem?_eq_getElem hi
    have hdrag : (dragNodeTo clientX clientY rectLeft rectTop panX panY zoom d nodes)[i]? =
        some { nodes.get ⟨i, hi⟩ with
                x := (clientX - rectLeft - panX) / zoom,
                y := (clientY - rectTop - panY) / zoom, vx := 0, vy := 0 } := by
      simp only [dragNodeTo]
      rw [List.getElem?_map, hget]
      simp only [Option.map_some']
      rw [if_pos hid]
    refine ⟨_, hdrag, rfl, rfl, rfl, rfl, ?_⟩
    have hlen : i <
        (dragNodeTo clientX clientY rectLeft rectTop panX panY zoom d nodes).length := by
      rw [dragNodeTo_length]; exact hi
    obtain ⟨F, hF⟩ := simulate_getElem sq edges cX cY (some d)
      (dragNodeTo clientX clientY rectLeft rectTop panX panY zoom d nodes) i hlen
    rw [hF, hdrag]
    simp only [Option.map_some']
    congr 1
    exact updateNode_dragged (some d) _ F (by simpa using hid.symm)
  · intro ns i hi hne
    have hget : ns[i]? = some (ns.get ⟨i, hi⟩) := List.getElem?_eq_getElem hi
    obtain ⟨F, hF⟩ := simulate_getElem sq edges cX cY (some d) ns i hi
    rw [hget] at hF
    simp only [Option.map_some'] at hF
    have hnd : ¬ (some d = some (ns.get ⟨i, hi⟩).id) := by
      intro hc
      exact hne (Option.some.inj hc).symm
    obtain ⟨hvx, hvy, hx, hy⟩ := updateNode_fields (some d) (ns.get ⟨i, hi⟩) F hnd
    exact ⟨updateNode (some d) (ns.get ⟨i, hi⟩) F, F, hF, hvx, hvy, hx, hy⟩

/-- Witness for C3: a concrete dragged node at pointer (5,7), pan (1,1),
zoom 2. -/
theorem drag_pinning_witness :
    ∃ m : SimNode,
      (dragNodeTo 5 7 0 0 1 1 2 "a" [⟨"a", "A", "person", "", 3, 4, 1, 2⟩])[0]? =
          some m ∧
        m.x = (5 - 0 - 1) / 2 ∧
        m.y = (7 - 0 - 1) / 2 ∧
        m.vx = 0 ∧ m.vy = 0 ∧
        (simulate (fun q => q) [] 0 0 (some "a")
          (dragNodeTo 5 7 0 0 1 1 2 "a" [⟨"a", "A", "person", "", 3, 4, 1, 2⟩]))[0]? =
          some m :=
  (drag_pinning (fun q => q) [] 0 0 5 7 0 0 1 1 2 "a"
    [⟨"a", "A", "person", "", 3, 4, 1, 2⟩]).1 0 (by decide) (by decide)

/-- C7: on graph replacement, every node without a preset (truthy)
position is deterministically placed on the spiral — index `i` goes to
`(centerX + cos(0.5 i) * (50 + 10 i), centerY + sin(0.5 i) * (50 + 10 i))`
with zero velocity (the layout is a pure function of the node order), and
a single-node graph is initialized exactly at the spiral start
`(centerX + 50, centerY)` — in the rational model every coordinate is a
well-defined rational, never NaN. -/
theorem spiral_initialization :
    (∀ (cosf sinf : ℚ → ℚ) (cX cY : ℚ) (ns : List MindMapNode) (i : ℕ)
        (hi : i < ns.length),
        (ns.get ⟨i, hi⟩).x = none → (ns.get ⟨i, hi⟩).y = none →
        ∃ m : SimNode, (initialNodes cosf sinf cX cY ns)[i]? = some m ∧
          m.id = (ns.get ⟨i, hi⟩).id ∧
          m.x = cX + cosf ((1/2 : ℚ) * i) * (50 + 10 * i) ∧
          m.y = cY + sinf ((1/2 : ℚ) * i) * (50 + 10 * i) ∧
          m.vx = 0 ∧ m.vy = 0)
    ∧ (∀ (cosf sinf : ℚ → ℚ) (cX cY : ℚ) (n : MindMapNode),
        cosf 0 = 1 → sinf 0 = 0 → n.x = none → n.y = none →
        initialNodes cosf sinf cX cY [n] =
          [⟨n.id, n.label, n.type, n.description, cX + 50, cY, 0, 0⟩]) := by
  constructor
  · intro cosf sinf cX cY ns i hi hx hy
    have hget : ns[i]? = some (ns.get ⟨i, hi⟩) := List.getElem?_eq_getElem hi
    have hval : (initialNodes cosf sinf cX cY ns)[i]? = some
        { id := (ns.get ⟨i, hi⟩).id, label := (ns.get ⟨i, hi⟩).label,
          type := (ns.get ⟨i, hi⟩).type,
          description := (ns.get ⟨i, hi⟩).description,
          x := cX + cosf ((1/2 : ℚ) * i) * (50 + 10 * i),
          y := cY + sinf ((1/2 : ℚ) * i) * (50 + 10 * i),
          vx := 0, vy := 0 } := by
      simp only [initialNodes]
      rw [List.getElem?_map, List.getElem?_enum, hget]
      simp only [Option.map_some']
      congr 1
      simp only [jsOr, hx, hy]
    exact ⟨_, hval, rfl, rfl, rfl, rfl, rfl⟩
  · intro cosf sinf cX cY n hcos hsin hx hy
    simp only [initialNodes, List.enum, List.enumFrom, List.map_cons, List.map_nil]
    congr 1
    simp only [jsOr, hx, hy, Nat.cast_zero, mul_zero, hcos, hsin]
    norm_num

/-- Witness for C7 on a concrete single-node graph centered at (400,300). -/
theorem spiral_initialization_witness :
    initialNodes (fun _ => 1) (fun _ => 0) 400 300
        [⟨"solo", "Solo", "case", "d", none, none⟩] =
      [⟨"solo", "Solo", "case", "d", 400 + 50, 300, 0, 0⟩] :=
  spiral_initialization.2 (fun _ => 1) (fun _ => 0) 400 300
    ⟨"solo", "Solo", "case", "d", none, none⟩ rfl rfl rfl rfl

/-- C2 amended: dangling edges are NOT removed at ingestion (see the
counterexample theorem); instead the render guard skips them — every edge
that survives to be drawn comes from the graph's edge list and has both
endpoint ids resolving to nodes of the node array, and in particular the
scenario-D graph (sole edge `(X, Y)` with `Y` absent) renders zero edges
even though its data still holds one. -/
theorem dangling_edges_skipped_at_render :
    (∀ (nodes : List SimNode) (edges : List MindMapEdge) (e : MindMapEdge),
        e ∈ renderedEdges nodes edges →
        e ∈ edges ∧ (∃ s ∈ nodes, s.id = e.source) ∧ (∃ t ∈ nodes, t.id = e.target))
    ∧ renderedEdges [⟨"X", "X entity", "person", "", 100, 100, 0, 0⟩]
        [⟨"X", "Y", "present at"⟩] = [] := by
  constructor
  · intro nodes edges e he
    have hmem : e ∈ edges := List.mem_of_mem_filter he
    have hp := List.of_mem_filter he
    refine ⟨hmem, ?_, ?_⟩
    · rcases hfs : nodes.find? (fun n => decide (n.id = e.source)) with _ | s
      · rw [hfs] at hp
        rcases hft : nodes.find? (fun n => decide (n.id = e.target)) with _ | t <;>
          rw [hft] at hp <;> exact absurd hp (by simp)
      · have hps := List.find?_some hfs
        exact ⟨s, List.mem_of_find?_eq_some hfs, of_decide_eq_true hps⟩
    · rcases hft : nodes.find? (fun n => decide (n.id = e.target)) with _ | t
      · rw [hft] at hp
        rcases hfs : nodes.find? (fun n => decide (n.id = e.source)) with _ | s <;>
          rw [hfs] at hp <;> exact absurd hp (by simp)
      · have hpt := List.find?_some hft
        exact ⟨t, List.mem_of_find?_eq_some hft, of_decide_eq_true hpt⟩
  · decide

/-- Witness for C2's amended theorem: a rendered edge between two resolved
nodes. -/
theorem dangling_edges_skipped_at_render_witness :
    (⟨"X", "Y", "knows"⟩ : MindMapEdge) ∈ [(⟨"X", "Y", "knows"⟩ : MindMapEdge)] ∧
      (∃ s ∈ [(⟨"X", "XL", "person", "", 100, 0, 0, 0⟩ : SimNode),
              ⟨"Y", "YL", "person", "", 200, 0, 0, 0⟩], s.id = "X") ∧
      (∃ t ∈ [(⟨"X", "XL", "person", "", 100, 0, 0, 0⟩ : SimNode),
              ⟨"Y", "YL", "person", "", 200, 0, 0, 0⟩], t.id = "Y") :=
  dangling_edges_skipped_at_render.1
    [⟨"X", "XL", "person", "", 100, 0, 0, 0⟩, ⟨"Y", "YL", "person", "", 200, 0, 0, 0⟩]
    [⟨"X", "Y", "knows"⟩] ⟨"X", "Y", "knows"⟩ (by decide)

/-- C8: both zoom button pairs keep the zoom inside their view's bounds —
`[0.3, 3]` for the force-graph view, `[0.5, 2]` for the radial view — a
request crossing a bound is clamped to that bound, and the button handlers
change only the `zoom` field, never the nodes' simulation coordinates. -/
theorem zoom_clamped_in_bounds :
    (∀ z : ℚ, 3/10 ≤ z → z ≤ 3 →
        3/10 ≤ forceZoomIn z ∧ forceZoomIn z ≤ 3 ∧
        3/10 ≤ forceZoomOut z ∧ forceZoomOut z ≤ 3)
    ∧ (∀ z : ℚ, z - 1/10 < 3/10 → forceZoomOut z = 3/10)
    ∧ (∀ z : ℚ, 3 < z + 1/10 → forceZoomIn z = 3)
    ∧ (∀ z : ℚ, 1/2 ≤ z → z ≤ 2 →
        1/2 ≤ radialZoomIn z ∧ radialZoomIn z ≤ 2 ∧
        1/2 ≤ radialZoomOut z ∧ radialZoomOut z ≤ 2)
    ∧ (∀ z : ℚ, z - 1/10 < 1/2 → radialZoomOut z = 1/2)
    ∧ (∀ z : ℚ, 2 < z + 1/10 → radialZoomIn z = 2)
    ∧ (∀ s : ForceViewState,
        (zoomInButton s).nodes = s.nodes ∧ (zoomOutButton s).nodes = s.nodes) := by
  refine ⟨?_, ?_, ?_, ?_, ?_, ?_, fun s => ⟨rfl, rfl⟩⟩
  · intro z h1 h2
    refine ⟨le_min (by norm_num) (by linarith), min_le_left _ _,
      le_max_left _ _, max_le (by norm_num) (by linarith)⟩
  · intro z h
    exact max_eq_left (le_of_lt h)
  · intro z h
    exact min_eq_left (le_of_lt h)
  · intro z h1 h2
    refine ⟨le_min (by norm_num) (by linarith), min_le_left _ _,
      le_max_left _ _, max_le (by norm_num) (by linarith)⟩
  · intro z h
    exact max_eq_left (le_of_lt h)
  · intro z h
    exact min_eq_left (le_of_lt h)

/-- Witness for C8 at concrete zoom values around the bounds. -/
theorem zoom_clamped_in_bounds_witness :
    (3/10 ≤ forceZoomIn 1 ∧ forceZoomIn 1 ≤ 3 ∧
      3/10 ≤ forceZoomOut 1 ∧ forceZoomOut 1 ≤ 3) ∧
    forceZoomOut (7/20) = 3/10 ∧
    forceZoomIn (59/20) = 3 ∧
    (1/2 ≤ radialZoomIn 1 ∧ radialZoomIn 1 ≤ 2 ∧
      1/2 ≤ radialZoomOut 1 ∧ radialZoomOut 1 ≤ 2) ∧
    radialZoomOut (11/20) = 1/2 ∧
    radialZoomIn (39/20) = 2 ∧
    (zoomInButton ⟨1, 0, 0, []⟩).nodes = (⟨1, 0, 0, []⟩ : ForceViewState).nodes :=
  ⟨zoom_clamped_in_bounds.1 1 (by norm_num) (by norm_num),
   zoom_clamped_in_bounds.2.1 (7/20) (by norm_num),
   zoom_clamped_in_bounds.2.2.1 (59/20) (by norm_num),
   zoom_clamped_in_bounds.2.2.2.1 1 (by norm_num) (by norm_num),
   zoom_clamped_in_bounds.2.2.2.2.1 (11/20) (by norm_num),
   zoom_clamped_in_bounds.2.2.2.2.2.1 (39/20) (by norm_num),
   (zoom_clamped_in_bounds.2.2.2.2.2.2 ⟨1, 0, 0, []⟩).1⟩

/-- Counterexample to C9 as stated: the node body is drawn inside the
camera-scaled container with no inverse scaling, so its rendered width is
`40 * zoom` — doubling the zoom doubles the on-screen node size instead of
leaving it constant. -/
theorem node_size_not_zoom_invariant :
    renderedNodeWidth 0 0 1 ⟨"n", "N", "person", "", 0, 0, 0, 0⟩ = 40 ∧
    renderedNodeWidth 0 0 2 ⟨"n", "N", "person", "", 0, 0, 0, 0⟩ = 80 ∧
    renderedNodeWidth 0 0 1 ⟨"n", "N", "person", "", 0, 0, 0, 0⟩ ≠
      renderedNodeWidth 0 0 2 ⟨"n", "N", "person", "", 0, 0, 0, 0⟩ := by
  refine ⟨?_, ?_, ?_⟩ <;>
    norm_num [renderedNodeWidth, nodeScreenLeftEdge, nodeScreenRightEdge,
      cameraTransform]

/-- C9 amended: the camera transform places a node's screen center at
`(zoom * x + panX, zoom * y + panY)` — simulation position scaled by zoom
plus pan — but the node's rendered body width is `40 * zoom`: it scales
with zoom rather than staying constant. -/
theorem node_screen_transform (panX panY z : ℚ) (n : SimNode) :
    nodeScreenCenter panX panY z n = (z * n.x + panX, z * n.y + panY) ∧
    renderedNodeWidth panX panY z n = 40 * z := by
  constructor
  · simp only [nodeScreenCenter, cameraTransform, Prod.mk.injEq]
    constructor <;> ring
  · simp only [renderedNodeWidth, nodeScreenRightEdge, nodeScreenLeftEdge,
      cameraTransform]
    ring
